import Mathlib

/-!
Shallow embedding of the PRISE_WAS_PRO2 price-management application
(TypeScript) and proofs about its pricing calculator, PDF price-list
builder, AI fallback service, CSV material import, and collection
ordering operations.

JavaScript numbers are modelled as rationals (`ℚ`): every arithmetic
step the claims exercise stays within exactly representable values, and
the idiom `Number(x) || 0` is the identity on a rational that is already
a number (it only rewrites `NaN` and `0` to `0`).  Identifiers are
modelled as `String`.
-/

namespace PriseWas

/-! ## Pricing model — `src/hooks/useSystemData.ts`, `calculateProductPrice` -/

/-- Material record (the fields `calculateProductPrice` reads). -/
structure Material where
  id : String
  name : String
  article : String
  unit : String
  price : ℚ
  created_at : String
  updated_at : String
  deriving Repr, DecidableEq

/-- One bill-of-materials (tech-card) line. -/
structure TechCardItem where
  materialId : String
  quantity : ℚ
  deriving Repr, DecidableEq

/-- Product fields used by the calculator.  The source normalises
`product.tech_card` to an array (`techCardArr`); we model the normalised
array directly as a list. -/
structure Product where
  product_type_id : String
  finish_type_id : String
  tech_card : List TechCardItem
  deriving Repr, DecidableEq

/-- Product-type pricing rule: labor cost (`workCost`) plus a markup percentage. -/
structure ProductTypeRule where
  id : String
  workCost : ℚ
  markup : ℚ
  deriving Repr, DecidableEq

/-- Finish-type pricing rule: a markup percentage. -/
structure FinishTypeRule where
  id : String
  markup : ℚ
  deriving Repr, DecidableEq

/-- The `priceSettings` rule tables. -/
structure PriceSettings where
  productTypes : List ProductTypeRule
  finishTypes : List FinishTypeRule
  deriving Repr, DecidableEq

/-- Result record of `calculateProductPrice`. -/
structure PriceResult where
  materialCost : ℚ
  workCost : ℚ
  basePrice : ℚ
  finalPrice : ℚ
  markup : ℚ
  deriving Repr, DecidableEq

/-- `materials.find((m) => m.id === it.materialId)` followed by
`mat?.price || 0`: price of the referenced material, `0` when the
reference is dangling (and `0 || 0 = 0` when the price itself is `0`). -/
def matPriceById (materials : List Material) (mid : String) : ℚ :=
  ((materials.find? fun m => m.id == mid).map Material.price).getD 0

/-- `techCardArr.reduce((sum, it) => sum + (Number(it.quantity) || 0) * (mat?.price || 0), 0)`. -/
def materialCostOf (techCard : List TechCardItem) (materials : List Material) : ℚ :=
  techCard.foldl (fun sum it => sum + it.quantity * matPriceById materials it.materialId) 0

/-- `priceSettings.productTypes.find((p) => p.id === product.product_type_id)`. -/
def productTypeOf (p : Product) (ps : PriceSettings) : Option ProductTypeRule :=
  ps.productTypes.find? fun r => r.id == p.product_type_id

/-- `priceSettings.finishTypes.find((f) => f.id === product.finish_type_id)`. -/
def finishTypeOf (p : Product) (ps : PriceSettings) : Option FinishTypeRule :=
  ps.finishTypes.find? fun r => r.id == p.finish_type_id

/-- `pt?.workCost || 0` (labor cost of the matched product-type rule). -/
def workCostOf (p : Product) (ps : PriceSettings) : ℚ :=
  ((productTypeOf p ps).map ProductTypeRule.workCost).getD 0

/-- `pt?.markup || 0`. -/
def typeMarkupOf (p : Product) (ps : PriceSettings) : ℚ :=
  ((productTypeOf p ps).map ProductTypeRule.markup).getD 0

/-- `ft?.markup || 0`. -/
def finishMarkupOf (p : Product) (ps : PriceSettings) : ℚ :=
  ((finishTypeOf p ps).map FinishTypeRule.markup).getD 0

/-- `basePrice = materialCost + workCost`. -/
def basePriceOf (p : Product) (ms : List Material) (ps : PriceSettings) : ℚ :=
  materialCostOf p.tech_card ms + workCostOf p ps

/-- `priceWithType = basePrice * (1 + (pt?.markup || 0) / 100)` — the
intermediate "price after the type markup" local of the source. -/
def priceWithTypeOf (p : Product) (ms : List Material) (ps : PriceSettings) : ℚ :=
  basePriceOf p ms ps * (1 + typeMarkupOf p ps / 100)

/-- `finalPrice = priceWithType * (1 + (ft?.markup || 0) / 100)`. -/
def finalPriceOf (p : Product) (ms : List Material) (ps : PriceSettings) : ℚ :=
  priceWithTypeOf p ms ps * (1 + finishMarkupOf p ps / 100)

/-- `markup = basePrice > 0 ? ((finalPrice - basePrice) / basePrice) * 100 : 0`. -/
def markupOf (p : Product) (ms : List Material) (ps : PriceSettings) : ℚ :=
  if 0 < basePriceOf p ms ps then
    (finalPriceOf p ms ps - basePriceOf p ms ps) / basePriceOf p ms ps * 100
  else 0

/-- `calculateProductPrice(product, materials, priceSettings)` from
`src/hooks/useSystemData.ts`: early return of all zeros on an empty
tech card, otherwise the straight-line computation above.  The function
is total — the TypeScript body has no `throw` and every missing
reference degrades to a zero contribution. -/
def calculateProductPrice (p : Product) (ms : List Material) (ps : PriceSettings) :
    PriceResult :=
  if p.tech_card.length = 0 then
    { materialCost := 0, workCost := 0, basePrice := 0, finalPrice := 0, markup := 0 }
  else
    { materialCost := materialCostOf p.tech_card ms
      workCost := workCostOf p ps
      basePrice := basePriceOf p ms ps
      finalPrice := finalPriceOf p ms ps
      markup := markupOf p ms ps }

/-- Replace the quantity of the bill-of-materials line at index `i`
(used to state quantity-monotonicity and contribution-replacement claims). -/
def setQtyAt : List TechCardItem → Nat → ℚ → List TechCardItem
  | [], _, _ => []
  | it :: rest, 0, q => { it with quantity := q } :: rest
  | it :: rest, n + 1, q => it :: setQtyAt rest n q

end PriseWas

namespace PriseWas

/-! ## Helper lemmas for the pricing model -/

theorem setQtyAt_length (tc : List TechCardItem) (i : Nat) (q : ℚ) :
    (setQtyAt tc i q).length = tc.length := by
  induction tc generalizing i with
  | nil => rfl
  | cons it rest ih =>
    cases i with
    | zero => rfl
    | succ n => simpa [setQtyAt] using ih n

theorem foldl_add_shift (f : TechCardItem → ℚ) :
    ∀ (tc : List TechCardItem) (a : ℚ),
      tc.foldl (fun sum it => sum + f it) a = a + tc.foldl (fun sum it => sum + f it) 0 := by
  intro tc
  induction tc with
  | nil => intro a; simp
  | cons it rest ih =>
    intro a
    simp only [List.foldl_cons]
    rw [ih (a + f it), ih (0 + f it)]
    ring

theorem materialCostOf_cons (it : TechCardItem) (rest : List TechCardItem)
    (ms : List Material) :
    materialCostOf (it :: rest) ms =
      it.quantity * matPriceById ms it.materialId + materialCostOf rest ms := by
  unfold materialCostOf
  simp only [List.foldl_cons]
  rw [foldl_add_shift]
  ring

theorem matPriceById_nonneg (ms : List Material) (mid : String)
    (h : ∀ m ∈ ms, 0 ≤ m.price) : 0 ≤ matPriceById ms mid := by
  unfold matPriceById
  cases hf : ms.find? fun m => m.id == mid with
  | none => simp
  | some m =>
    have hm : m ∈ ms := List.mem_of_find?_eq_some hf
    simpa using h m hm

theorem matPriceById_dangling (ms : List Material) (mid : String)
    (h : ∀ m ∈ ms, m.id ≠ mid) : matPriceById ms mid = 0 := by
  unfold matPriceById
  have hf : (ms.find? fun m => m.id == mid) = none := by
    apply List.find?_eq_none.mpr
    intro m hm
    simpa using h m hm
  rw [hf]
  rfl

theorem materialCostOf_setQtyAt_mono (ms : List Material)
    (hms : ∀ m ∈ ms, 0 ≤ m.price) :
    ∀ (tc : List TechCardItem) (i : Nat) (it : TechCardItem) (q : ℚ),
      tc.get? i = some it → it.quantity ≤ q →
      materialCostOf tc ms ≤ materialCostOf (setQtyAt tc i q) ms := by
  intro tc
  induction tc with
  | nil => intro i it q h; simp at h
  | cons hd rest ih =>
    intro i it q hget hq
    cases i with
    | zero =>
      simp only [List.get?] at hget
      obtain rfl : hd = it := by injection hget
      simp only [setQtyAt]
      rw [materialCostOf_cons, materialCostOf_cons]
      have hp : 0 ≤ matPriceById ms hd.materialId := matPriceById_nonneg ms _ hms
      have hmul : hd.quantity * matPriceById ms hd.materialId ≤
          q * matPriceById ms hd.materialId := mul_le_mul_of_nonneg_right hq hp
      exact add_le_add_right hmul (materialCostOf rest ms)
    | succ n =>
      simp only [List.get?] at hget
      simp only [setQtyAt]
      rw [materialCostOf_cons, materialCostOf_cons]
      exact add_le_add_left (ih n it q hget hq) _

theorem materialCostOf_setQtyAt_dangling (ms : List Material) :
    ∀ (tc : List TechCardItem) (i : Nat) (it : TechCardItem),
      tc.get? i = some it → (∀ m ∈ ms, m.id ≠ it.materialId) →
      materialCostOf (setQtyAt tc i 0) ms = materialCostOf tc ms := by
  intro tc
  induction tc with
  | nil => intro i it h; simp at h
  | cons hd rest ih =>
    intro i it hget hmiss
    cases i with
    | zero =>
      simp only [List.get?] at hget
      obtain rfl : hd = it := by injection hget
      simp only [setQtyAt]
      rw [materialCostOf_cons, materialCostOf_cons]
      rw [matPriceById_dangling ms hd.materialId hmiss]
      ring
    | succ n =>
      simp only [List.get?] at hget
      simp only [setQtyAt]
      rw [materialCostOf_cons, materialCostOf_cons, ih n it hget hmiss]

end PriseWas

namespace PriseWas

/-! ## Claim theorems for the pricing calculator -/

/-- C1. Markup chaining: for a product whose bill of materials yields
`materialCost = 850`, whose matched product-type rule has labor cost
`1000` and markup `10`, and whose matched finish-type rule has markup
`50`, the calculator returns `basePrice = 1850`, the intermediate price
after the type markup is `2035`, and `finalPrice = 3052.5`. -/
theorem markup_chaining (p : Product) (ms : List Material) (ps : PriceSettings)
    (hmc : materialCostOf p.tech_card ms = 850)
    (hpt : ∃ r, productTypeOf p ps = some r ∧ r.workCost = 1000 ∧ r.markup = 10)
    (hft : ∃ f, finishTypeOf p ps = some f ∧ f.markup = 50)
    (hne : p.tech_card ≠ []) :
    (calculateProductPrice p ms ps).basePrice = 1850 ∧
      priceWithTypeOf p ms ps = 2035 ∧
      (calculateProductPrice p ms ps).finalPrice = 3052.5 := by
  obtain ⟨r, hr, hw, hm⟩ := hpt
  obtain ⟨f, hf, hfm⟩ := hft
  have hwc : workCostOf p ps = 1000 := by
    unfold workCostOf; rw [hr]; simpa using hw
  have htm : typeMarkupOf p ps = 10 := by
    unfold typeMarkupOf; rw [hr]; simpa using hm
  have hfmv : finishMarkupOf p ps = 50 := by
    unfold finishMarkupOf; rw [hf]; simpa using hfm
  have hbase : basePriceOf p ms ps = 1850 := by
    unfold basePriceOf; rw [hmc, hwc]; norm_num
  have hpwt : priceWithTypeOf p ms ps = 2035 := by
    unfold priceWithTypeOf; rw [hbase, htm]; norm_num
  have hfinal : finalPriceOf p ms ps = 3052.5 := by
    unfold finalPriceOf; rw [hpwt, hfmv]; norm_num
  have hlen : ¬ p.tech_card.length = 0 := by
    intro h0
    exact hne (List.length_eq_zero.mp h0)
  refine ⟨?_, hpwt, ?_⟩ <;> simp [calculateProductPrice, hlen, hbase, hfinal]

/-- Witness for C1 at a concrete product, catalog and rule tables. -/
theorem markup_chaining_witness :
    (calculateProductPrice
        ⟨"t1", "f1", [⟨"m1", 1⟩]⟩
        [⟨"m1", "ЛДСП", "LDSP-18-W", "м2", 850, "", ""⟩]
        ⟨[⟨"t1", 1000, 10⟩], [⟨"f1", 50⟩]⟩).basePrice = 1850 ∧
      priceWithTypeOf ⟨"t1", "f1", [⟨"m1", 1⟩]⟩
        [⟨"m1", "ЛДСП", "LDSP-18-W", "м2", 850, "", ""⟩]
        ⟨[⟨"t1", 1000, 10⟩], [⟨"f1", 50⟩]⟩ = 2035 ∧
      (calculateProductPrice
        ⟨"t1", "f1", [⟨"m1", 1⟩]⟩
        [⟨"m1", "ЛДСП", "LDSP-18-W", "м2", 850, "", ""⟩]
        ⟨[⟨"t1", 1000, 10⟩], [⟨"f1", 50⟩]⟩).finalPrice = 3052.5 :=
  markup_chaining _ _ _ (by norm_num [materialCostOf, matPriceById, List.find?])
    ⟨⟨"t1", 1000, 10⟩, rfl, rfl, rfl⟩
    ⟨⟨"f1", 50⟩, rfl, rfl⟩ (by simp)

/-- C4. Empty bill of materials: the early return yields a result whose
material cost, labor cost, base price and final price are all zero, no
matter what rule tables are supplied. -/
theorem empty_bom_zero (p : Product) (ms : List Material) (ps : PriceSettings)
    (h : p.tech_card = []) :
    calculateProductPrice p ms ps =
      { materialCost := 0, workCost := 0, basePrice := 0, finalPrice := 0, markup := 0 } := by
  simp [calculateProductPrice, h]

/-- Witness for C4: an empty-BOM product whose type and finish ids do
match rules with non-zero labor cost and markups. -/
theorem empty_bom_zero_witness :
    calculateProductPrice ⟨"t1", "f1", []⟩
        [⟨"m1", "ЛДСП", "LDSP-18-W", "м2", 850, "", ""⟩]
        ⟨[⟨"t1", 500, 10⟩], [⟨"f1", 50⟩]⟩ =
      { materialCost := 0, workCost := 0, basePrice := 0, finalPrice := 0, markup := 0 } :=
  empty_bom_zero _ _ _ rfl

/-- C3. Price monotonicity: with non-negative material prices and
non-negative matched markups, raising the quantity of any single
bill-of-materials line never decreases the final price. -/
theorem finalPrice_monotone_in_quantity (p : Product) (ms : List Material)
    (ps : PriceSettings) (i : Nat) (it : TechCardItem) (q : ℚ)
    (hget : p.tech_card.get? i = some it) (hq : it.quantity ≤ q)
    (hms : ∀ m ∈ ms, 0 ≤ m.price)
    (htm : 0 ≤ typeMarkupOf p ps) (hfm : 0 ≤ finishMarkupOf p ps) :
    (calculateProductPrice p ms ps).finalPrice ≤
      (calculateProductPrice { p with tech_card := setQtyAt p.tech_card i q } ms ps).finalPrice := by
  set p' : Product := { p with tech_card := setQtyAt p.tech_card i q } with hp'
  have hlen0 : ¬ p.tech_card.length = 0 := by
    intro h0
    rw [List.length_eq_zero.mp h0] at hget
    simp at hget
  have hlen' : ¬ p'.tech_card.length = 0 := by
    simpa [hp', setQtyAt_length] using hlen0
  have hmcle : materialCostOf p.tech_card ms ≤ materialCostOf p'.tech_card ms :=
    materialCostOf_setQtyAt_mono ms hms p.tech_card i it q hget hq
  have htm' : typeMarkupOf p' ps = typeMarkupOf p ps := rfl
  have hfm' : finishMarkupOf p' ps = finishMarkupOf p ps := rfl
  have hwc' : workCostOf p' ps = workCostOf p ps := rfl
  have hbase : basePriceOf p ms ps ≤ basePriceOf p' ms ps := by
    unfold basePriceOf
    rw [hwc']
    exact add_le_add_right hmcle _
  have hk1 : (0 : ℚ) ≤ 1 + typeMarkupOf p ps / 100 := by linarith
  have hk2 : (0 : ℚ) ≤ 1 + finishMarkupOf p ps / 100 := by linarith
  have hpwt : priceWithTypeOf p ms ps ≤ priceWithTypeOf p' ms ps := by
    unfold priceWithTypeOf
    rw [htm']
    exact mul_le_mul_of_nonneg_right hbase hk1
  have hfinal : finalPriceOf p ms ps ≤ finalPriceOf p' ms ps := by
    unfold finalPriceOf
    rw [hfm']
    exact mul_le_mul_of_nonneg_right hpwt hk2
  simpa [calculateProductPrice, hlen0, hlen'] using hfinal

/-- Witness for C3 at a concrete product: quantity 2 raised to 5. -/
theorem finalPrice_monotone_in_quantity_witness :
    (calculateProductPrice ⟨"t1", "f1", [⟨"m1", 2⟩]⟩
        [⟨"m1", "ЛДСП", "LDSP-18-W", "м2", 100, "", ""⟩]
        ⟨[⟨"t1", 1000, 10⟩], [⟨"f1", 50⟩]⟩).finalPrice ≤
      (calculateProductPrice
        { product_type_id := "t1", finish_type_id := "f1",
          tech_card := setQtyAt [⟨"m1", 2⟩] 0 5 }
        [⟨"m1", "ЛДСП", "LDSP-18-W", "м2", 100, "", ""⟩]
        ⟨[⟨"t1", 1000, 10⟩], [⟨"f1", 50⟩]⟩).finalPrice :=
  finalPrice_monotone_in_quantity ⟨"t1", "f1", [⟨"m1", 2⟩]⟩ _ _ 0 ⟨"m1", 2⟩ 5
    rfl (by norm_num)
    (by intro m hm; simp at hm; subst hm; norm_num)
    (by norm_num [typeMarkupOf, productTypeOf, List.find?])
    (by norm_num [finishMarkupOf, finishTypeOf, List.find?])

/-- C5. Dangling-reference tolerance: a bill-of-materials line whose
`materialId` matches no material contributes exactly `0` to the material
cost, and the whole result equals the result with that line's
contribution replaced by zero (its quantity zeroed out).  The embedded
function is total, matching the source, which never throws here. -/
theorem dangling_reference_tolerated (p : Product) (ms : List Material)
    (ps : PriceSettings) (i : Nat) (it : TechCardItem)
    (hget : p.tech_card.get? i = some it)
    (hmiss : ∀ m ∈ ms, m.id ≠ it.materialId) :
    it.quantity * matPriceById ms it.materialId = 0 ∧
      calculateProductPrice p ms ps =
        calculateProductPrice { p with tech_card := setQtyAt p.tech_card i 0 } ms ps := by
  constructor
  · rw [matPriceById_dangling ms it.materialId hmiss, mul_zero]
  · have hmc : materialCostOf (setQtyAt p.tech_card i 0) ms = materialCostOf p.tech_card ms :=
      materialCostOf_setQtyAt_dangling ms p.tech_card i it hget hmiss
    simp [calculateProductPrice, basePriceOf, priceWithTypeOf, finalPriceOf, markupOf,
      workCostOf, typeMarkupOf, finishMarkupOf, productTypeOf, finishTypeOf,
      setQtyAt_length, hmc]

/-- Witness for C5: a two-line BOM whose second line references the
absent id `"ghost"`. -/
theorem dangling_reference_tolerated_witness :
    (⟨"ghost", 7⟩ : TechCardItem).quantity *
        matPriceById [⟨"m1", "ЛДСП", "LDSP-18-W", "м2", 100, "", ""⟩] "ghost" = 0 ∧
      calculateProductPrice ⟨"t1", "f1", [⟨"m1", 2⟩, ⟨"ghost", 7⟩]⟩
          [⟨"m1", "ЛДСП", "LDSP-18-W", "м2", 100, "", ""⟩]
          ⟨[⟨"t1", 1000, 10⟩], [⟨"f1", 50⟩]⟩ =
        calculateProductPrice
          { product_type_id := "t1", finish_type_id := "f1",
            tech_card := setQtyAt [⟨"m1", 2⟩, ⟨"ghost", 7⟩] 1 0 }
          [⟨"m1", "ЛДСП", "LDSP-18-W", "м2", 100, "", ""⟩]
          ⟨[⟨"t1", 1000, 10⟩], [⟨"f1", 50⟩]⟩ :=
  dangling_reference_tolerated ⟨"t1", "f1", [⟨"m1", 2⟩, ⟨"ghost", 7⟩]⟩ _ _ 1 ⟨"ghost", 7⟩
    rfl (by decide)

end PriseWas

namespace PriseWas

/-! ## PDF price-list builder — `src/lib/pdf/wasserPdfGenerator.ts` -/

/-- One priced row of the price list (`SeriesItem`). -/
structure SeriesItem where
  article : String
  name : String
  type : Option String
  dimensions : Option String
  material : Option String
  color : Option String
  price : ℚ
  deriving Repr, DecidableEq

/-- One group of rows (`ProductSeries`) — whatever the grouping mode
(`none`/`type`/`collection`) produced upstream, the builder receives a
plain list of such groups. -/
structure ProductSeries where
  series : String
  seriesDesc : Option String
  items : List SeriesItem
  deriving Repr, DecidableEq

/-- `series.items.reduce((sum, it) => sum + (Number(it.price) || 0), 0)` —
the per-series subtotal shown in the group's foot row. -/
def seriesTotal (s : ProductSeries) : ℚ :=
  s.items.foldl (fun sum it => sum + it.price) 0

/-- The `grandTotal += seriesTotal` accumulation across all groups; this
is the figure shown in the `showGrandTotal` summary row. -/
def grandTotal (products : List ProductSeries) : ℚ :=
  products.foldl (fun g s => g + seriesTotal s) 0

/-- Environment of effectful preconditions of `generateDoc`: whether the
jsPDF constructor resolved, whether the autotable plugin is attached to
the document, and whether the theme font could be fetched. -/
structure PdfEnv where
  jsPdfCtorAvailable : Bool
  autoTableAttached : Bool
  fontFetchOk : Bool
  deriving Repr, DecidableEq

/-- `registerFont(doc, url, fontName)`: on a fetch failure the catch
block falls back to the built-in `'helvetica'` font and reports `false`
instead of raising.  Result: (succeeded, font actually set). -/
def registerFont (fontFetchOk : Bool) (fontName : String) : Bool × String :=
  if fontFetchOk then (true, fontName) else (false, "helvetica")

/-- Abstraction of the finished jsPDF document: the font in effect and
the grand total its summary row displays. -/
structure DocModel where
  font : String
  total : ℚ
  deriving Repr, DecidableEq

/-- `WasserPDFGenerator.generateDoc`: throws `'jsPDF не доступен'` when
the constructor is unavailable; registers the font (with the helvetica
fallback); throws `'jspdf-autotable не подключен'` when the plugin is
not attached; otherwise completes the document. -/
def generateDoc (env : PdfEnv) (fontName : String) (products : List ProductSeries) :
    Except String DocModel :=
  if env.jsPdfCtorAvailable = false then Except.error "jsPDF не доступен"
  else
    let fontRes := registerFont env.fontFetchOk fontName
    if env.autoTableAttached = false then Except.error "jspdf-autotable не подключен"
    else Except.ok { font := fontRes.2, total := grandTotal products }

theorem foldl_add_eq_sum {α : Type} (f : α → ℚ) (l : List α) :
    l.foldl (fun s x => s + f x) 0 = (l.map f).sum := by
  suffices h : ∀ a : ℚ, l.foldl (fun s x => s + f x) a = a + (l.map f).sum by
    simpa using h 0
  induction l with
  | nil => intro a; simp
  | cons hd tl ih =>
    intro a
    simp only [List.foldl_cons, List.map_cons, List.sum_cons]
    rw [ih]
    ring

/-- C2. Grand-total consistency: the accumulated grand total equals the
sum of the per-group subtotals, both equal the sum of the price field
over all rows of all groups, and the list of per-group subtotals is
exactly the list of per-group row-price sums — for every list of input
groups, hence for every grouping mode that produced it. -/
theorem grand_total_consistent (products : List ProductSeries) :
    grandTotal products = (products.map seriesTotal).sum ∧
      grandTotal products =
        (products.map (fun s => (s.items.map SeriesItem.price).sum)).sum ∧
      products.map seriesTotal =
        products.map (fun s => (s.items.map SeriesItem.price).sum) := by
  have hseries : ∀ s : ProductSeries, seriesTotal s = (s.items.map SeriesItem.price).sum := by
    intro s
    unfold seriesTotal
    exact foldl_add_eq_sum SeriesItem.price s.items
  have hmap : products.map seriesTotal =
      products.map (fun s => (s.items.map SeriesItem.price).sum) :=
    List.map_congr_left fun s _ => hseries s
  have hgrand : grandTotal products = (products.map seriesTotal).sum := by
    unfold grandTotal
    exact foldl_add_eq_sum seriesTotal products
  exact ⟨hgrand, by rw [hgrand, hmap], hmap⟩

/-- C7. Failure semantics of the document builder: a missing rendering
engine fails the build with the engine error, a missing table-layout
plugin fails it with a distinct plugin error, and a font-fetch failure
alone is non-fatal — the build completes with the helvetica fallback. -/
theorem builder_failure_semantics (env : PdfEnv) (fontName : String)
    (products : List ProductSeries) :
    (env.jsPdfCtorAvailable = false →
        generateDoc env fontName products = Except.error "jsPDF не доступен") ∧
      (env.jsPdfCtorAvailable = true → env.autoTableAttached = false →
        generateDoc env fontName products = Except.error "jspdf-autotable не подключен") ∧
      ("jsPDF не доступен" : String) ≠ "jspdf-autotable не подключен" ∧
      (env.jsPdfCtorAvailable = true → env.autoTableAttached = true →
        env.fontFetchOk = false →
        generateDoc env fontName products =
          Except.ok { font := "helvetica", total := grandTotal products }) := by
  refine ⟨?_, ?_, by decide, ?_⟩
  · intro h
    simp [generateDoc, h]
  · intro h1 h2
    simp [generateDoc, h1, h2]
  · intro h1 h2 h3
    simp [generateDoc, registerFont, h1, h2, h3]

/-- Witness for C7 at the three concrete environments. -/
theorem builder_failure_semantics_witness :
    generateDoc ⟨false, true, true⟩ "Inter" [] = Except.error "jsPDF не доступен" ∧
      generateDoc ⟨true, false, true⟩ "Inter" [] =
        Except.error "jspdf-autotable не подключен" ∧
      generateDoc ⟨true, true, false⟩ "Inter" [] =
        Except.ok { font := "helvetica", total := 0 } :=
  ⟨(builder_failure_semantics ⟨false, true, true⟩ "Inter" []).1 rfl,
    (builder_failure_semantics ⟨true, false, true⟩ "Inter" []).2.1 rfl rfl,
    (builder_failure_semantics ⟨true, true, false⟩ "Inter" []).2.2.2 rfl rfl rfl⟩

end PriseWas

namespace PriseWas

/-! ## Collections page — `src/pages/Collections.tsx` -/

/-- Collection record fields touched by the operations below. -/
structure Collection where
  id : String
  product_order : List String
  updated_at : String
  deriving Repr, DecidableEq

/-- `Array.prototype.indexOf` on an id list: index of the first
occurrence, `-1` when absent. -/
def jsIndexOf : List String → String → Int
  | [], _ => -1
  | a :: as, x =>
    if a == x then 0
    else
      let r := jsIndexOf as x
      if r < 0 then -1 else r + 1

/-- `insertAt`: `copy.splice(idx, 0, val)` with JavaScript index
normalisation — a negative index counts from the end (clamped at 0), an
index past the end appends. -/
def insertAtJs (arr : List String) (idx : Int) (val : String) : List String :=
  let actual : Nat := if idx < 0 then ((arr.length : Int) + idx).toNat else min idx.toNat arr.length
  arr.insertIdx actual val

/-- `DnDEditor.onDropOverItem`: no-op when the dragged id equals the
target, otherwise remove the dragged id and re-insert it at the target's
position. -/
def onDropOverItem (order : List String) (draggingId targetId : String) : List String :=
  if draggingId = targetId then order
  else
    let next := order.filter fun id => id != draggingId
    let targetIdx := jsIndexOf next targetId
    insertAtJs next targetIdx draggingId

/-- `DnDEditor.onDropToListEnd`: remove the dragged id and append it at
the end. -/
def onDropToListEnd (order : List String) (draggingId : String) : List String :=
  (order.filter fun id => id != draggingId) ++ [draggingId]

/-- The per-collection arrow function inside `quickAddProductToCollection`:
`c.id === collectionId && !c.product_order.includes(productId) ? {...c,
product_order: [...c.product_order, productId], updated_at: now} : c`. -/
def quickAddStep (collectionId productId now : String) (c : Collection) : Collection :=
  if c.id == collectionId && !(c.product_order.contains productId) then
    { c with product_order := c.product_order ++ [productId], updated_at := now }
  else c

/-- `quickAddProductToCollection`: map `quickAddStep` over the
collection list — append the product id to the target collection's
order only when it is not already present; every other collection (and
an already-containing target) is returned unchanged. -/
def quickAddProductToCollection (collections : List Collection)
    (collectionId productId : String) (now : String) : List Collection :=
  collections.map (quickAddStep collectionId productId now)

theorem jsIndexOf_of_mem :
    ∀ (l : List String) (x : String), x ∈ l →
      ∃ n : Nat, jsIndexOf l x = (n : Int) ∧ n < l.length := by
  intro l
  induction l with
  | nil => intro x hx; simp at hx
  | cons a as ih =>
    intro x hx
    by_cases hax : a == x
    · exact ⟨0, by simp [jsIndexOf, hax], by simp⟩
    · have hxas : x ∈ as := by
        rcases List.mem_cons.mp hx with h | h
        · exact absurd (beq_iff_eq.mpr h.symm) hax
        · exact h
      obtain ⟨n, hn, hlt⟩ := ih x hxas
      refine ⟨n + 1, ?_, by simpa using Nat.succ_lt_succ hlt⟩
      have hnneg : ¬ ((n : Int) < 0) := by omega
      simp [jsIndexOf, hax, hn, hnneg]

theorem perm_insertIdx_cons (a : String) :
    ∀ (n : Nat) (l : List String), n ≤ l.length →
      List.Perm (l.insertIdx n a) (a :: l) := by
  intro n
  induction n with
  | zero => intro l _; simp [List.insertIdx_zero]
  | succ n ih =>
    intro l hle
    cases l with
    | nil => simp at hle
    | cons hd tl =>
      rw [List.insertIdx_succ_cons]
      have h1 : List.Perm (tl.insertIdx n a) (a :: tl) := ih tl (Nat.le_of_succ_le_succ hle)
      exact (h1.cons hd).trans (List.Perm.swap a hd tl)

/-- C9. Collection order preservation: on a duplicate-free order,
dropping a dragged id that is in the list onto another id in the list,
or onto the end, yields a permutation of the original order — the same
ids, each exactly once. -/
theorem dnd_reorder_preserves_ids (order : List String) (draggingId targetId : String)
    (hnd : order.Nodup) (hdrag : draggingId ∈ order) (htgt : targetId ∈ order) :
    List.Perm (onDropOverItem order draggingId targetId) order ∧
      (onDropOverItem order draggingId targetId).Nodup ∧
      List.Perm (onDropToListEnd order draggingId) order ∧
      (onDropToListEnd order draggingId).Nodup := by
  have hfilter : (order.filter fun id => id != draggingId) = order.erase draggingId :=
    (hnd.erase_eq_filter draggingId).symm
  have hperm : List.Perm (draggingId :: order.erase draggingId) order :=
    (List.perm_cons_erase hdrag).symm
  have hend : List.Perm (onDropToListEnd order draggingId) order := by
    unfold onDropToListEnd
    rw [hfilter]
    exact (List.perm_append_singleton _ _).trans hperm
  have hover : List.Perm (onDropOverItem order draggingId targetId) order := by
    by_cases hdt : draggingId = targetId
    · simp [onDropOverItem, hdt]
    · have htne : targetId ≠ draggingId := fun h => hdt h.symm
      have htgt' : targetId ∈ order.erase draggingId :=
        (List.mem_erase_of_ne htne).mpr htgt
      obtain ⟨n, hn, hlt⟩ := jsIndexOf_of_mem (order.erase draggingId) targetId htgt'
      have hnneg : ¬ ((n : Int) < 0) := by omega
      have hmin : min (n : Int).toNat (order.erase draggingId).length = n := by
        simpa using Nat.min_eq_left hlt.le
      have hinsert :
          List.Perm ((order.erase draggingId).insertIdx n draggingId)
            (draggingId :: order.erase draggingId) :=
        perm_insertIdx_cons draggingId n (order.erase draggingId) hlt.le
      unfold onDropOverItem insertAtJs
      simp only [if_neg hdt, hfilter, hn, if_neg hnneg, hmin]
      exact hinsert.trans hperm
  exact ⟨hover, (hover.symm.nodup hnd), hend, (hend.symm.nodup hnd)⟩

/-- Witness for C9: order `["a","b","c"]`, dragging `"a"` onto `"c"` and
onto the end. -/
theorem dnd_reorder_preserves_ids_witness :
    List.Perm (onDropOverItem ["a", "b", "c"] "a" "c") ["a", "b", "c"] ∧
      (onDropOverItem ["a", "b", "c"] "a" "c").Nodup ∧
      List.Perm (onDropToListEnd ["a", "b", "c"] "a") ["a", "b", "c"] ∧
      (onDropToListEnd ["a", "b", "c"] "a").Nodup :=
  dnd_reorder_preserves_ids ["a", "b", "c"] "a" "c" (by decide) (by decide) (by decide)

end PriseWas

namespace PriseWas

theorem quickAddStep_absent (c : Collection) (cid pid now : String)
    (hc : c.id = cid) (hp : pid ∉ c.product_order) :
    quickAddStep cid pid now c =
      { c with product_order := c.product_order ++ [pid], updated_at := now } := by
  simp [quickAddStep, hc, hp]

theorem quickAddStep_noop (c : Collection) (cid pid now : String)
    (h : c.id = cid → pid ∈ c.product_order) :
    quickAddStep cid pid now c = c := by
  by_cases hc : c.id = cid
  · simp [quickAddStep, hc, h hc]
  · have : (c.id == cid) = false := beq_false_of_ne hc
    simp [quickAddStep, this]

theorem quickAddStep_nodup (c : Collection) (cid pid now : String)
    (h : c.product_order.Nodup) :
    (quickAddStep cid pid now c).product_order.Nodup := by
  unfold quickAddStep
  by_cases hcond : (c.id == cid && !(c.product_order.contains pid)) = true
  · have hp : pid ∉ c.product_order := by
      have h2 := (Bool.and_eq_true _ _).mp hcond |>.2
      simpa using h2
    rw [if_pos hcond]
    have hperm : List.Perm (c.product_order ++ [pid]) (pid :: c.product_order) :=
      List.perm_append_singleton pid c.product_order
    exact hperm.symm.nodup (List.nodup_cons.mpr ⟨hp, h⟩)
  · rw [if_neg hcond]
    exact h

theorem quickAddStep_idem (c : Collection) (cid pid now now' : String) :
    quickAddStep cid pid now' (quickAddStep cid pid now c) = quickAddStep cid pid now c := by
  by_cases hcond : (c.id == cid && !(c.product_order.contains pid)) = true
  · have hc : c.id = cid := beq_iff_eq.mp ((Bool.and_eq_true _ _).mp hcond).1
    apply quickAddStep_noop
    intro _
    simp only [quickAddStep, if_pos hcond]
    simp
  · have hcc : quickAddStep cid pid now c = c := by
      unfold quickAddStep
      rw [if_neg hcond]
    rw [hcc]
    apply quickAddStep_noop
    intro hc
    by_contra hp
    exact hcond (by simp [hc, hp])

/-- C10. `quickAddProductToCollection` appends the product id at the end
of the target collection's order exactly when absent, leaves an
already-containing target and every other collection bit-for-bit
unchanged, never introduces a duplicate into a duplicate-free order, and
is idempotent: a second application is the identity. -/
theorem quickAdd_idempotent_spec (collections : List Collection) (cid pid now now' : String) :
    (quickAddProductToCollection collections cid pid now).length = collections.length ∧
      (∀ (i : Nat) (c : Collection), collections[i]? = some c →
        (c.id = cid → pid ∉ c.product_order →
          (quickAddProductToCollection collections cid pid now)[i]? =
            some { c with product_order := c.product_order ++ [pid], updated_at := now }) ∧
        ((c.id = cid → pid ∈ c.product_order) →
          (quickAddProductToCollection collections cid pid now)[i]? = some c) ∧
        (c.product_order.Nodup →
          ∀ c', (quickAddProductToCollection collections cid pid now)[i]? = some c' →
            c'.product_order.Nodup)) ∧
      quickAddProductToCollection (quickAddProductToCollection collections cid pid now)
          cid pid now' =
        quickAddProductToCollection collections cid pid now := by
  refine ⟨by simp [quickAddProductToCollection], ?_, ?_⟩
  · intro i c hc
    have hmap : (quickAddProductToCollection collections cid pid now)[i]? =
        some (quickAddStep cid pid now c) := by
      simp [quickAddProductToCollection, List.getElem?_map, hc]
    refine ⟨?_, ?_, ?_⟩
    · intro hid hp
      rw [hmap, quickAddStep_absent c cid pid now hid hp]
    · intro h
      rw [hmap, quickAddStep_noop c cid pid now h]
    · intro hnd c' hc'
      rw [hmap] at hc'
      have : c' = quickAddStep cid pid now c := by
        injection hc' with h
        exact h.symm
      rw [this]
      exact quickAddStep_nodup c cid pid now hnd
  · unfold quickAddProductToCollection
    rw [List.map_map]
    exact List.map_congr_left fun c _ => quickAddStep_idem c cid pid now now'

/-- Witness for C10: two collections; the target gains the id at the
end, the other stays unchanged, and a second application is stable. -/
theorem quickAdd_idempotent_spec_witness :
    (quickAddProductToCollection [⟨"c1", ["p1"], "t0"⟩, ⟨"c2", ["p9"], "t0"⟩] "c1" "p2" "t1")[0]? =
        some ⟨"c1", ["p1", "p2"], "t1"⟩ ∧
      (quickAddProductToCollection [⟨"c1", ["p1"], "t0"⟩, ⟨"c2", ["p9"], "t0"⟩] "c1" "p2" "t1")[1]? =
        some ⟨"c2", ["p9"], "t0"⟩ :=
  ⟨((quickAdd_idempotent_spec [⟨"c1", ["p1"], "t0"⟩, ⟨"c2", ["p9"], "t0"⟩] "c1" "p2" "t1" "t2").2.1
      0 ⟨"c1", ["p1"], "t0"⟩ rfl).1 rfl (by decide),
    ((quickAdd_idempotent_spec [⟨"c1", ["p1"], "t0"⟩, ⟨"c2", ["p9"], "t0"⟩] "c1" "p2" "t1" "t2").2.1
      1 ⟨"c2", ["p9"], "t0"⟩ rfl).2.1 (by intro h; exact absurd h (by decide))⟩

end PriseWas

namespace PriseWas

/-! ## AI service with local fallback — `src/services/ai.ts` -/

/-- Catalog entry passed to the AI helpers (`MaterialsCatalogItem`). -/
structure MaterialsCatalogItem where
  name : String
  article : Option String
  unit : Option String
  price : Option ℚ
  deriving Repr, DecidableEq

/-- Suggested tech-card line (`AiTechCardItem`). -/
structure AiTechCardItem where
  name : String
  article : Option String
  quantity : ℚ
  unit : Option String
  deriving Repr, DecidableEq

/-- Drop leading whitespace of a character list. -/
def dropLeadingWs : List Char → List Char
  | [] => []
  | c :: cs => if c.isWhitespace then dropLeadingWs cs else c :: cs

/-- `String.prototype.trim`, computed structurally on the character
list: strip whitespace from both ends. -/
def jsTrim (s : String) : String :=
  ⟨(dropLeadingWs (dropLeadingWs s.data).reverse).reverse⟩

/-- `String.prototype.toLowerCase` (simple case mapping per char). -/
def jsToLower (s : String) : String := ⟨s.data.map Char.toLower⟩

/-- `FallbackUtils.low`: `String(s || '').trim().toLowerCase()`. -/
def low (s : String) : String := jsToLower (jsTrim s)

/-- Check that `pat` is an initial segment of `l` (char-by-char). -/
def isPrefList : List Char → List Char → Bool
  | [], _ => true
  | _ :: _, [] => false
  | p :: ps, c :: cs => p == c && isPrefList ps cs

/-- Substring occurrence on character lists. -/
def hasSubList (pat : List Char) : List Char → Bool
  | [] => isPrefList pat []
  | c :: cs => isPrefList pat (c :: cs) || hasSubList pat cs

/-- `String.prototype.includes`. -/
def strIncludes (s pat : String) : Bool := hasSubList pat.data s.data

/-- `FallbackUtils.hasAny`: some keyword occurs in the lowered text. -/
def hasAny (text : String) (keys : List String) : Bool :=
  keys.any fun k => strIncludes (low text) (low k)

/-- JavaScript `x || d` on an optional string: the default replaces both
`undefined` and the empty string. -/
def jsOrStr : Option String → String → String
  | some s, d => if s = "" then d else s
  | none, d => d

/-- `FallbackUtils.findInCatalog`: first by exact article, then by exact
name, then by name inclusion (all on lowered strings; an absent search
key lowers to the empty string, as `String(undefined || '')` does). -/
def findInCatalog (catalog : List MaterialsCatalogItem) (name article : Option String) :
    Option MaterialsCatalogItem :=
  let L : Option String → String := fun x => low (x.getD "")
  match catalog.find? fun m => L m.article == L article with
  | some m => some m
  | none =>
    match catalog.find? fun m => low m.name == L name with
    | some m => some m
    | none => catalog.find? fun m => strIncludes (low m.name) (L name)

/-- `Number(q.toFixed(2))`: round to two decimal places. -/
def toFixed2 (q : ℚ) : ℚ := ((round (q * 100) : ℤ) : ℚ) / 100

/-- The `(ldspQty, edgeQty, hingeQty)` initialisation plus size
overrides: `1.8/6/2` by default, `1.5/4/2` for 600, `2.2/7/2` for 800,
`2.8/9/4` for 1000. -/
def sizeBase (is600 is800 is1000 : Bool) : ℚ × ℚ × ℚ :=
  if is600 then (1.5, 4, 2)
  else if is800 then (2.2, 7, 2)
  else if is1000 then (2.8, 9, 4)
  else (1.8, 6, 2)

/-- `ldspQty` after the `isPenal` adjustment (`+= 0.8`). -/
def ldspQtyOf (is600 is800 is1000 isPenal : Bool) : ℚ :=
  if isPenal then (sizeBase is600 is800 is1000).1 + 0.8 else (sizeBase is600 is800 is1000).1

/-- `edgeQty` after the `isPenal` adjustment (`+= 2`). -/
def edgeQtyOf (is600 is800 is1000 isPenal : Bool) : ℚ :=
  if isPenal then (sizeBase is600 is800 is1000).2.1 + 2 else (sizeBase is600 is800 is1000).2.1

/-- `hingeQty` after the `isPenal` adjustment (`= 4`). -/
def hingeQtyOf (is600 is800 is1000 isPenal : Bool) : ℚ :=
  if isPenal then 4 else (sizeBase is600 is800 is1000).2.2

/-- The mirror branch of `FallbackUtils.techCardSuggest`: mirror glass
(area by size) plus 2 running metres of edge banding. -/
def mirrorItems (catalog : List MaterialsCatalogItem) (is600 is800 : Bool) :
    List AiTechCardItem :=
  let glass := findInCatalog catalog (some "Стекло зеркальное") none
  let edge := findInCatalog catalog (some "Кромка ПВХ 2мм") (some "EDGE-2-PVC")
  [{ name := jsOrStr (glass.map MaterialsCatalogItem.name) "Зеркало стеклянное"
     article := glass.bind MaterialsCatalogItem.article
     quantity := if is600 then 0.35 else if is800 then 0.5 else 0.6
     unit := some (jsOrStr (glass.bind MaterialsCatalogItem.unit) "м2") },
   { name := jsOrStr (edge.map MaterialsCatalogItem.name) "Кромка ПВХ 2мм"
     article := some (jsOrStr (edge.bind MaterialsCatalogItem.article) "EDGE-2-PVC")
     quantity := 2
     unit := some (jsOrStr (edge.bind MaterialsCatalogItem.unit) "пог.м") }]

/-- The non-mirror branch of `FallbackUtils.techCardSuggest`: board and
edge banding always, hinges for cabinets/doors, handles on demand. -/
def normalItems (catalog : List MaterialsCatalogItem)
    (isTumba isPenal hasDoorWords hasHandleWords is600 is800 is1000 : Bool) :
    List AiTechCardItem :=
  let ldsp := findInCatalog catalog (some "ЛДСП 18мм Белый") (some "LDSP-18-W")
  let edge := findInCatalog catalog (some "Кромка ПВХ 2мм") (some "EDGE-2-PVC")
  let hinge := findInCatalog catalog (some "Петля clip-on") (some "HINGE-CLIP")
  let handle := findInCatalog catalog (some "Ручка скоба") none
  [{ name := jsOrStr (ldsp.map MaterialsCatalogItem.name) "ЛДСП 18мм Белый"
     article := some (jsOrStr (ldsp.bind MaterialsCatalogItem.article) "LDSP-18-W")
     quantity := toFixed2 (ldspQtyOf is600 is800 is1000 isPenal)
     unit := some (jsOrStr (ldsp.bind MaterialsCatalogItem.unit) "м2") },
   { name := jsOrStr (edge.map MaterialsCatalogItem.name) "Кромка ПВХ 2мм"
     article := some (jsOrStr (edge.bind MaterialsCatalogItem.article) "EDGE-2-PVC")
     quantity := edgeQtyOf is600 is800 is1000 isPenal
     unit := some (jsOrStr (edge.bind MaterialsCatalogItem.unit) "пог.м") }] ++
  (if isTumba || isPenal || hasDoorWords then
    [{ name := jsOrStr (hinge.map MaterialsCatalogItem.name) "Петля clip-on"
       article := some (jsOrStr (hinge.bind MaterialsCatalogItem.article) "HINGE-CLIP")
       quantity := hingeQtyOf is600 is800 is1000 isPenal
       unit := some (jsOrStr (hinge.bind MaterialsCatalogItem.unit) "шт") }]
  else []) ++
  (if hasHandleWords then
    [{ name := jsOrStr (handle.map MaterialsCatalogItem.name) "Ручка скоба"
       article := handle.bind MaterialsCatalogItem.article
       quantity := if is600 then 2 else 2
       unit := some (jsOrStr (handle.bind MaterialsCatalogItem.unit) "шт") }]
  else [])

/-- `FallbackUtils.techCardSuggest`: keyword heuristics over
`productName + ' ' + brief`, then the mirror or cabinet branch. -/
def techCardSuggest (productName brief : String)
    (materialsCatalog : List MaterialsCatalogItem) : List AiTechCardItem :=
  let text := productName ++ " " ++ brief
  let isTumba := hasAny text ["тумб", "tumb", "tb-"]
  let isPenal := hasAny text ["пенал", "penal"]
  let isMirror := hasAny text ["зеркал", "mirror", "mir-"]
  let is600 := hasAny text ["600"]
  let is800 := hasAny text ["800"]
  let is1000 := hasAny text ["1000", "1000мм", "1 000"]
  if isMirror then mirrorItems materialsCatalog is600 is800
  else
    normalItems materialsCatalog isTumba isPenal
      (hasAny text ["двер", "петл", "hinge"]) (hasAny text ["ручк", "handle"])
      is600 is800 is1000

/-- `FallbackUtils.collectionDescription`: deterministic 2–3 sentence
description assembled from the name, group and product names. -/
def collectionDescription (name : String) (group : Option String)
    (productNames : List String) : String :=
  let n := if name = "" then "Новая коллекция" else name
  let g := match group with
    | some gr => if gr = "" then "" else " (" ++ gr ++ ")"
    | none => ""
  let lineup :=
    if productNames.length ≠ 0 then
      "В линейку входят: " ++ String.intercalate ", " (productNames.take 4) ++
        (if 4 < productNames.length then " и др." else "") ++ ". "
    else ""
  let pitch :=
    "Коллекция сочетает функциональность и лаконичную эстетику, подойдёт для современных интерьеров."
  n ++ g ++ " — актуальная подборка изделий с продуманными размерами и материалами. " ++
    lineup ++ pitch

/-- Outcome of the `fetch` to `/api/ai/claude` as `AiService.post`
distinguishes it: network throw, non-2xx response, or a parsed body
that may carry an `error` field. -/
inductive FetchOutcome (α : Type) where
  | networkError (msg : String)
  | httpError (status : Nat) (txt : String)
  | okBody (errorField : Option String) (data : α)

/-- The `AiResponse<T>` record `{ ok, data?, error? }`. -/
structure AiResponse (α : Type) where
  ok : Bool
  data : Option α
  error : Option String

/-- `AiService.post`: non-2xx and thrown errors become `{ok: false}`, a
body-level `error` field also becomes `{ok: false}`, otherwise
`{ok: true, data}`. -/
def post {α : Type} : FetchOutcome α → AiResponse α
  | .networkError msg => ⟨false, none, some msg⟩
  | .httpError status txt => ⟨false, none, some ("HTTP " ++ toString status ++ ": " ++ txt)⟩
  | .okBody (some e) _ => ⟨false, none, some e⟩
  | .okBody none d => ⟨true, some d, none⟩

/-- A gateway failure: network error, non-2xx status, or an `error`
field in the response body. -/
def FetchOutcome.isGatewayFailure {α : Type} : FetchOutcome α → Bool
  | .networkError _ => true
  | .httpError _ _ => true
  | .okBody (some _) _ => true
  | .okBody none _ => false

/-- `AiService.suggestTechCard`: use the remote items when the call
succeeded and at least one item has positive quantity, otherwise the
local fallback. -/
def suggestTechCard (outcome : FetchOutcome (List AiTechCardItem))
    (productName brief : String) (materialsCatalog : List MaterialsCatalogItem) :
    List AiTechCardItem :=
  let remote := post outcome
  if remote.ok then
    let items := remote.data.getD []
    let cleaned := items.filter fun x => decide (0 < x.quantity)
    if cleaned.length ≠ 0 then cleaned
    else techCardSuggest productName brief materialsCatalog
  else techCardSuggest productName brief materialsCatalog

/-- `AiService.generateCollectionDescription`: use the remote
description when the call succeeded and the trimmed text is non-empty,
otherwise the local fallback. -/
def generateCollectionDescription (outcome : FetchOutcome String) (name : String)
    (group : Option String) (productNames : List String) : String :=
  let remote := post outcome
  if remote.ok then
    let desc := jsTrim (remote.data.getD "")
    if desc ≠ "" then desc else collectionDescription name group productNames
  else collectionDescription name group productNames

end PriseWas

namespace PriseWas

theorem toFixed2_pos (q : ℚ) (h : 3 / 2 ≤ q) : 0 < toFixed2 q := by
  unfold toFixed2
  have h150 : (150 : ℤ) ≤ round (q * 100) := by
    rw [round_eq, Int.le_floor]
    push_cast
    linarith
  have hpos : (0 : ℚ) < ((round (q * 100) : ℤ) : ℚ) := by
    exact_mod_cast lt_of_lt_of_le (by norm_num : (0 : ℤ) < 150) h150
  positivity

theorem ldspQtyOf_ge (a b c d : Bool) : 3 / 2 ≤ ldspQtyOf a b c d := by
  unfold ldspQtyOf sizeBase
  split_ifs <;> norm_num

theorem edgeQtyOf_pos (a b c d : Bool) : 0 < edgeQtyOf a b c d := by
  unfold edgeQtyOf sizeBase
  split_ifs <;> norm_num

theorem hingeQtyOf_pos (a b c d : Bool) : 0 < hingeQtyOf a b c d := by
  unfold hingeQtyOf sizeBase
  split_ifs <;> norm_num

theorem mirrorItems_sound (catalog : List MaterialsCatalogItem) (a b : Bool) :
    mirrorItems catalog a b ≠ [] ∧ ∀ it ∈ mirrorItems catalog a b, 0 < it.quantity := by
  constructor
  · simp [mirrorItems]
  · intro it hit
    simp only [mirrorItems, List.mem_cons, List.mem_singleton, List.not_mem_nil,
      or_false] at hit
    rcases hit with rfl | rfl
    · simp only []
      split_ifs <;> norm_num
    · norm_num

theorem normalItems_sound (catalog : List MaterialsCatalogItem)
    (t p dw hw a b c : Bool) :
    normalItems catalog t p dw hw a b c ≠ [] ∧
      ∀ it ∈ normalItems catalog t p dw hw a b c, 0 < it.quantity := by
  constructor
  · simp [normalItems]
  · intro it hit
    by_cases hdoor : (t || p || dw) = true
    · by_cases hhw : hw = true
      · simp [normalItems, hdoor, hhw] at hit
        rcases hit with rfl | rfl | rfl | rfl
        · exact toFixed2_pos _ (ldspQtyOf_ge a b c p)
        · exact edgeQtyOf_pos a b c p
        · exact hingeQtyOf_pos a b c p
        · norm_num
      · simp [normalItems, hdoor, hhw] at hit
        rcases hit with rfl | rfl | rfl
        · exact toFixed2_pos _ (ldspQtyOf_ge a b c p)
        · exact edgeQtyOf_pos a b c p
        · exact hingeQtyOf_pos a b c p
    · by_cases hhw : hw = true
      · simp [normalItems, hdoor, hhw] at hit
        rcases hit with rfl | rfl | rfl
        · exact toFixed2_pos _ (ldspQtyOf_ge a b c p)
        · exact edgeQtyOf_pos a b c p
        · norm_num
      · simp [normalItems, hdoor, hhw] at hit
        rcases hit with rfl | rfl
        · exact toFixed2_pos _ (ldspQtyOf_ge a b c p)
        · exact edgeQtyOf_pos a b c p

theorem techCardSuggest_sound (productName brief : String)
    (catalog : List MaterialsCatalogItem) :
    techCardSuggest productName brief catalog ≠ [] ∧
      ∀ it ∈ techCardSuggest productName brief catalog, 0 < it.quantity := by
  unfold techCardSuggest
  by_cases hm : hasAny (productName ++ " " ++ brief) ["зеркал", "mirror", "mir-"] = true
  · simp only [hm, if_true]
    exact mirrorItems_sound _ _ _
  · simp only [Bool.not_eq_true] at hm
    simp only [hm, Bool.false_eq_true, if_false]
    exact normalItems_sound _ _ _ _ _ _ _ _

theorem post_not_ok {α : Type} (o : FetchOutcome α)
    (h : o.isGatewayFailure = true) : (post o).ok = false := by
  cases o with
  | networkError m => rfl
  | httpError s t => rfl
  | okBody e d =>
    cases e with
    | some e => rfl
    | none => simp [FetchOutcome.isGatewayFailure] at h

theorem collectionDescription_ne_empty (name : String) (group : Option String)
    (productNames : List String) : collectionDescription name group productNames ≠ "" := by
  intro hemp
  have hlen : (collectionDescription name group productNames).length = 0 := by
    rw [hemp]
    rfl
  unfold collectionDescription at hlen
  simp only [String.length_append] at hlen
  have hmid :
      (" — актуальная подборка изделий с продуманными размерами и материалами. " :
        String).length ≠ 0 := by decide
  omega

/-- C8. Fallback availability: on any gateway failure (network error,
non-2xx status, or an `error` field in the body) `suggestTechCard`
returns exactly the local fallback — a non-empty list whose items all
have positive quantity — and `generateCollectionDescription` returns the
local fallback, a non-empty string; both are total functions, for every
input including an empty materials catalog. -/
theorem ai_fallback_available
    (o₁ : FetchOutcome (List AiTechCardItem)) (o₂ : FetchOutcome String)
    (productName brief : String) (catalog : List MaterialsCatalogItem)
    (name : String) (group : Option String) (productNames : List String)
    (h₁ : o₁.isGatewayFailure = true) (h₂ : o₂.isGatewayFailure = true) :
    suggestTechCard o₁ productName brief catalog =
        techCardSuggest productName brief catalog ∧
      suggestTechCard o₁ productName brief catalog ≠ [] ∧
      (∀ it ∈ suggestTechCard o₁ productName brief catalog, 0 < it.quantity) ∧
      generateCollectionDescription o₂ name group productNames =
        collectionDescription name group productNames ∧
      generateCollectionDescription o₂ name group productNames ≠ "" := by
  have hok₁ : (post o₁).ok = false := post_not_ok o₁ h₁
  have hok₂ : (post o₂).ok = false := post_not_ok o₂ h₂
  have he₁ : suggestTechCard o₁ productName brief catalog =
      techCardSuggest productName brief catalog := by
    simp [suggestTechCard, hok₁]
  have he₂ : generateCollectionDescription o₂ name group productNames =
      collectionDescription name group productNames := by
    simp [generateCollectionDescription, hok₂]
  obtain ⟨hne, hpos⟩ := techCardSuggest_sound productName brief catalog
  refine ⟨he₁, ?_, ?_, he₂, ?_⟩
  · rw [he₁]; exact hne
  · rw [he₁]; exact hpos
  · rw [he₂]; exact collectionDescription_ne_empty name group productNames

/-- Witness for C8: a simulated 500 response and an empty catalog. -/
theorem ai_fallback_available_witness :
    suggestTechCard (.httpError 500 "Internal") "Тумба 600" "" [] =
        techCardSuggest "Тумба 600" "" [] ∧
      suggestTechCard (.httpError 500 "Internal") "Тумба 600" "" [] ≠ [] ∧
      (∀ it ∈ suggestTechCard (.httpError 500 "Internal") "Тумба 600" "" [],
        0 < it.quantity) ∧
      generateCollectionDescription (.httpError 500 "Internal") "Нео" none [] =
        collectionDescription "Нео" none [] ∧
      generateCollectionDescription (.httpError 500 "Internal") "Нео" none [] ≠ "" :=
  ai_fallback_available (.httpError 500 "Internal") (.httpError 500 "Internal")
    "Тумба 600" "" [] "Нео" none [] rfl rfl

end PriseWas

namespace PriseWas

/-! ## CSV material import — materials page (`importCsv`, `parseCsvToMaterials`) -/

/-- One CSV data row at the cell level: the line/comma/quote splitting
of `parseCsvToMaterials` is modelled as already done, and the
`Number(...)` coercion of the price cell as the row carrying its numeric
value; `id`/timestamps are the values `coerceMaterial` would generate. -/
structure CsvRow where
  name : String
  article : String
  unit : String
  price : ℚ
  id : String
  created_at : String
  updated_at : String
  deriving Repr, DecidableEq

/-- `coerceMaterial`: trim name and article, drop the row when the
trimmed name is empty. -/
def coerceMaterial (r : CsvRow) : Option Material :=
  if jsTrim r.name = "" then none
  else
    some { id := r.id, name := jsTrim r.name, article := jsTrim r.article, unit := r.unit,
           price := r.price, created_at := r.created_at, updated_at := r.updated_at }

/-- `parseCsvToMaterials`: coerce each data row, keeping the valid ones. -/
def parseCsvToMaterials (rows : List CsvRow) : List Material :=
  rows.filterMap coerceMaterial

/-- `String(m.article || '').trim().toLowerCase()` — the merge key. -/
def artKey (s : String) : String := jsToLower (jsTrim s)

/-- Index of the material the merge map `mapByArticle` holds for a key:
`new Map(items.map(m => [key(m), m]))` keeps the LAST entry per key, and
the map is built once from the pre-import `items` and never extended. -/
def lastIdxWith (items : List Material) (k : String) : Option Nat :=
  match items.reverse.findIdx? fun m => artKey m.article == k with
  | some j => some (items.length - 1 - j)
  | none => none

/-- The in-place field updates on a matched existing record:
`existing.name = it.name || existing.name` etc., with `updated_at`
stamped. -/
def applyCsvUpdate (existing imported : Material) (now : String) : Material :=
  { existing with
    name := if imported.name ≠ "" then imported.name else existing.name
    unit := if imported.unit ≠ "" then imported.unit else existing.unit
    price := if imported.price ≠ 0 then imported.price else existing.price
    updated_at := now }

/-- Apply `f` at index `j` of a material list (the in-place mutation of
the aliased array element). -/
def listUpdateAt : List Material → Nat → (Material → Material) → List Material
  | [], _, _ => []
  | m :: rest, 0, f => f m :: rest
  | m :: rest, n + 1, f => m :: listUpdateAt rest n f

/-- Loop state of the `importCsv` merge: the (mutated) original items,
the unshifted new rows (most recent first), and how many were added. -/
structure MergeState where
  orig : List Material
  news : List Material
  added : Nat
  deriving Repr, DecidableEq

/-- One iteration of the `for (const it of imported)` loop.  The lookup
consults only the map built from the pre-import `items`; a row whose key
is not there is unshifted with a fresh id and timestamps — and is NOT
entered into the map. -/
def importCsvStep (items : List Material) (now : String) (freshId : Nat → String)
    (st : MergeState) (it : Material) : MergeState :=
  let key := artKey it.article
  match (if key = "" then none else lastIdxWith items key) with
  | some j => { st with orig := listUpdateAt st.orig j fun m => applyCsvUpdate m it now }
  | none =>
    { st with
      news := { it with id := freshId st.added, created_at := now, updated_at := now } :: st.news
      added := st.added + 1 }

/-- `importCsv`: parse the rows, merge them into the catalog by article
key, and return the new-rows-first catalog (`merged.unshift` order). -/
def importCsv (items : List Material) (rows : List CsvRow) (now : String)
    (freshId : Nat → String) : List Material :=
  let imported := parseCsvToMaterials rows
  let fin := imported.foldl (importCsvStep items now freshId) ⟨items, [], 0⟩
  fin.news ++ fin.orig

/-- C6 (refuted — evaluation at the failing input): importing two CSV
rows whose articles `"A-1"` and `"a-1"` are case-insensitively equal
into an empty catalog leaves TWO material records with that article key,
not one: the merge map is built only from the pre-import catalog and is
never extended with rows added during the loop, so the second row does
not merge into the first and case-insensitive article uniqueness is
violated. -/
theorem csv_import_duplicate_article :
    (importCsv []
        [{ name := "Mat A", article := "A-1", unit := "шт", price := 10,
           id := "p1", created_at := "t0", updated_at := "t0" },
         { name := "Mat B", article := "a-1", unit := "м", price := 20,
           id := "p2", created_at := "t0", updated_at := "t0" }]
        "t1" (fun n => "new" ++ toString n)).countP
      (fun m => artKey m.article == "a-1") = 2 := by
  decide

end PriseWas
